import Mathlib

/-
Verification of the streaming two-pass abundance trimmer
(sandbox/trim-low-abund.py) against its natural-language design
specification.

The script drives a khmer counting hash through two passes over each
input file.  The pipeline control flow (pass 1 defer/trim/emit decisions,
the paired-read handling, pass 2 over the deferred store, the final
false-positive-rate gate, and the configuration checks) lives in the
script and is embedded below directly from the source.  The counting
structure itself (khmer.new_counting_hash and its methods
get_median_count / consume / trim_on_abundance) is library code that is
not part of the script; the pipeline is therefore embedded polymorphically
over an operations interface `TableOps`, and a concrete instantiation
`specOps` is modelled from the specification where a claim needs the
library's behaviour.
-/

/-- Errors the counting structure may raise while examining a sequence
(the specification's local error taxonomy for KmerCodec/CountingTable). -/
inductive TableErr where
  | TooShort
  | InvalidBase
  | InvalidLength
deriving DecidableEq, Repr

/-- A screed sequence record as the script consumes it: a name, a DNA
sequence, and an optional quality (`accuracy`) string. -/
structure Record where
  name : String
  sequence : List Char
  accuracy : Option (List Char)
deriving DecidableEq, Repr

/-- The interface of the khmer counting hash exactly as the script uses
it: `get_median_count` returns a triple whose first component is the
median k-mer abundance of the sequence (and may fail on bad input),
`consume` increments the counters of every k-mer of the sequence, and
`trim_on_abundance` returns a truncated sequence together with the trim
position. -/
structure TableOps (τ : Type) where
  get_median_count : τ → List Char → Except TableErr (Nat × Nat × Nat)
  consume : τ → List Char → τ
  trim_on_abundance : τ → List Char → Nat → List Char × Nat

/-- Source `trim_record(read, trim_at)`: a fresh record with the same
name, the sequence truncated to `sequence[:trim_at]`, and, when present,
the accuracy string truncated to `accuracy[:trim_at]`. -/
def trim_record (read : Record) (trim_at : Nat) : Record :=
  { name := read.name,
    sequence := read.sequence.take trim_at,
    accuracy := read.accuracy.map (fun a => a.take trim_at) }

/-- Source `read.sequence.replace('N', 'A')`: every ambiguous base `N`
is substituted by `A`. -/
def replaceNA (s : List Char) : List Char :=
  s.map (fun c => if c = 'N' then 'A' else c)

/-- The writes a single pass-1 iteration performs, together with the
table state it leaves behind: records appended to the pass-2 (deferred)
file and records appended to the final `.abundtrim` output. -/
structure StepResult (τ : Type) where
  table : τ
  deferredWrites : List Record
  finalWrites : List Record
deriving DecidableEq, Repr

/-- One yield of the broken-paired reader: either a single record or a
pair of mates. -/
inductive Item where
  | single (r : Record)
  | pair (r1 r2 : Record)
deriving DecidableEq, Repr

/-- The records an item carries. -/
def itemRecords : Item → List Record
  | Item.single r => [r]
  | Item.pair r1 r2 => [r1, r2]

/-- The names of the records an item carries. -/
def itemNames (it : Item) : List String :=
  (itemRecords it).map Record.name

/-- Pass 1, unpaired branch of the source loop: substitute N, query the
median; if `med < NORMALIZE_LIMIT` consume the substituted sequence and
write the record to the pass-2 file; otherwise compute
`trim_on_abundance` and write the trimmed record to final output only
when `trim_at >= K`.  An exception from the table propagates (the script
has no handler). -/
def pass1Single (O : TableOps τ) (K cutoff limit : Nat) (t : τ)
    (read1 : Record) : Except TableErr (StepResult τ) :=
  let seq := replaceNA read1.sequence
  match O.get_median_count t seq with
  | Except.error e => Except.error e
  | Except.ok (med, _, _) =>
    if med < limit then
      Except.ok ⟨O.consume t seq, [read1], []⟩
    else
      let trim_at := (O.trim_on_abundance t seq cutoff).2
      if K ≤ trim_at then
        Except.ok ⟨t, [], [trim_record read1 trim_at]⟩
      else
        Except.ok ⟨t, [], []⟩

/-- Pass 1, paired branch of the source loop: substitute N in both
mates, query both medians; if either median is `< NORMALIZE_LIMIT`,
consume both substituted sequences and write both records to the pass-2
file; otherwise compute both trim positions, replace each mate by its
trimmed record only when its `trim_at >= K`, and write the pair to final
output unconditionally. -/
def pass1Pair (O : TableOps τ) (K cutoff limit : Nat) (t : τ)
    (read1 read2 : Record) : Except TableErr (StepResult τ) :=
  let seq1 := replaceNA read1.sequence
  let seq2 := replaceNA read2.sequence
  match O.get_median_count t seq1 with
  | Except.error e => Except.error e
  | Except.ok (med1, _, _) =>
    match O.get_median_count t seq2 with
    | Except.error e => Except.error e
    | Except.ok (med2, _, _) =>
      if med1 < limit ∨ med2 < limit then
        Except.ok ⟨O.consume (O.consume t seq1) seq2, [read1, read2], []⟩
      else
        let trim_at1 := (O.trim_on_abundance t seq1 cutoff).2
        let trim_at2 := (O.trim_on_abundance t seq2 cutoff).2
        let out1 := if K ≤ trim_at1 then trim_record read1 trim_at1 else read1
        let out2 := if K ≤ trim_at2 then trim_record read2 trim_at2 else read2
        Except.ok ⟨t, [], [out1, out2]⟩

/-- One pass-1 loop iteration on a yield of the broken-paired reader. -/
def pass1Item (O : TableOps τ) (K cutoff limit : Nat) (t : τ) :
    Item → Except TableErr (StepResult τ)
  | Item.single r => pass1Single O K cutoff limit t r
  | Item.pair r1 r2 => pass1Pair O K cutoff limit t r1 r2

/-- The whole pass-1 loop over one input file: iterate `pass1Item`,
threading the table and concatenating the pass-2 and final writes in
order; an exception aborts the loop. -/
def pass1Run (O : TableOps τ) (K cutoff limit : Nat) :
    τ → List Item → Except TableErr (τ × List Record × List Record)
  | t, [] => Except.ok (t, [], [])
  | t, it :: its =>
    match pass1Item O K cutoff limit t it with
    | Except.error e => Except.error e
    | Except.ok res =>
      match pass1Run O K cutoff limit res.table its with
      | Except.error e => Except.error e
      | Except.ok (t2, ds, fs) =>
        Except.ok (t2, res.deferredWrites ++ ds, res.finalWrites ++ fs)

/-- Pass 2, one record of the deferred store: substitute N, query the
median; if `med < NORMALIZE_LIMIT` and variable-coverage is on, write
the record unmodified; otherwise compute `trim_on_abundance` and write
the trimmed record only when `trim_at >= K`.  The table is never
consumed into in pass 2, and nothing is ever written back to a deferred
store. -/
def pass2Record (O : TableOps τ) (K cutoff limit : Nat)
    (variable_coverage : Bool) (t : τ) (read : Record) :
    Except TableErr (τ × List Record) :=
  let seq := replaceNA read.sequence
  match O.get_median_count t seq with
  | Except.error e => Except.error e
  | Except.ok (med, _, _) =>
    if med < limit ∧ variable_coverage then
      Except.ok (t, [read])
    else
      let trim_at := (O.trim_on_abundance t seq cutoff).2
      if K ≤ trim_at then
        Except.ok (t, [trim_record read trim_at])
      else
        Except.ok (t, [])

/-- The whole pass-2 loop over one file's deferred store. -/
def pass2Run (O : TableOps τ) (K cutoff limit : Nat)
    (variable_coverage : Bool) :
    τ → List Record → Except TableErr (τ × List Record)
  | t, [] => Except.ok (t, [])
  | t, r :: rs =>
    match pass2Record O K cutoff limit variable_coverage t r with
    | Except.error e => Except.error e
    | Except.ok (t1, ws) =>
      match pass2Run O K cutoff limit variable_coverage t1 rs with
      | Except.error e => Except.error e
      | Except.ok (t2, rest) => Except.ok (t2, ws ++ rest)

/-
A concrete counting structure, modelled from the specification.
-/

/-- Modelled from the spec: the k-mers of a sequence are its
`L - K + 1` substrings of length K (none when `L < K`); the khmer
counting-hash internals are not part of the script's source. -/
def kmersOf (K : Nat) (s : List Char) : List (List Char) :=
  (List.range (s.length + 1 - K)).map (fun i => (s.drop i).take K)

/-- Modelled from the spec: a collision-free instantiation of the
counting structure, its state being the multiset of k-mers consumed so
far; a k-mer's count is its number of occurrences, saturating at 255
(the fixed counter maximum). -/
def get_count (t : List (List Char)) (km : List Char) : Nat :=
  min 255 (t.count km)

/-- Insertion of a value into a sorted list of counts. -/
def insertSorted (x : Nat) : List Nat → List Nat
  | [] => [x]
  | y :: ys => if x ≤ y then x :: y :: ys else y :: insertSorted x ys

/-- Sorting a list of counts (insertion sort). -/
def sortNat (l : List Nat) : List Nat :=
  l.foldr insertSorted []

/-- Modelled from the spec: `get_median_count` computes the per-k-mer
counts of the sequence and returns their median, minimum and maximum;
it fails with `TooShort` when the sequence is shorter than K (the
sequence yields no k-mer). -/
def spec_get_median_count (K : Nat) (t : List (List Char))
    (s : List Char) : Except TableErr (Nat × Nat × Nat) :=
  if s.length < K then Except.error TableErr.TooShort
  else
    let sorted := sortNat ((kmersOf K s).map (get_count t))
    Except.ok (sorted.getD (sorted.length / 2) 0, sorted.headD 0,
      sorted.getLastD 0)

/-- Modelled from the spec: `consume` increments the counter of every
k-mer of the sequence, i.e. adds all its k-mers to the multiset. -/
def spec_consume (K : Nat) (t : List (List Char)) (s : List Char) :
    List (List Char) :=
  t ++ kmersOf K s

/-- Modelled from the spec: `trim_on_abundance` scans k-mer positions
left to right; at the first position `i` whose count falls below the
cutoff the sequence is truncated at `i + K - 1`; if no k-mer falls below
the cutoff, or the sequence is shorter than K, the trim position is the
whole length (untrimmable, non-fatal). -/
def spec_trim_on_abundance (K : Nat) (t : List (List Char))
    (s : List Char) (cutoff : Nat) : List Char × Nat :=
  if s.length < K then (s, s.length)
  else
    match ((kmersOf K s).map (get_count t)).findIdx? (fun c => c < cutoff) with
    | some i => (s.take (i + K - 1), i + K - 1)
    | none => (s, s.length)

/-- The spec-modelled counting structure packaged as the operations
interface the script uses. -/
def specOps (K : Nat) : TableOps (List (List Char)) :=
  { get_median_count := spec_get_median_count K,
    consume := spec_consume K,
    trim_on_abundance := spec_trim_on_abundance K }

/-
The run level: configuration checks, both passes over every input file,
and the end-of-run false-positive-rate gate.
-/

/-- Fatal configuration errors (the specification's `ConfigError`). -/
inductive ConfigErr where
  | duplicateInputs
  | invalidKsize
deriving DecidableEq, Repr

/-- Source check `len(set(input_filenames)) != len(input_filenames)`:
whether the same input filename was given more than once. -/
def hasDuplicateInputs (filenames : List String) : Bool :=
  filenames.dedup.length ≠ filenames.length

/-- Modelled from the spec: the construction of the counting table
(`khmer.new_counting_hash`) is library code not in the script; per the
specification's error taxonomy an invalid k-mer size (≤ 0) is a
`ConfigError`, fatal before any processing begins.  For a valid size
the k-mer length is the given size. -/
def new_counting_hash (ksize : Int) : Except ConfigErr Nat :=
  if ksize ≤ 0 then Except.error ConfigErr.invalidKsize
  else Except.ok ksize.toNat

/-- Source `MAX_FALSE_POSITIVE_RATE = 0.8`, modelled as the rational
4/5. -/
def MAX_FALSE_POSITIVE_RATE : Rat := 4 / 5

/-- Pass 1 over every input file in order (the script finishes pass 1
for all files before any pass 2), threading one shared table and
returning, per file, its deferred store and its pass-1 final output. -/
def pass1AllFiles (O : TableOps τ) (K cutoff limit : Nat) :
    τ → List (List Item) →
    Except TableErr (τ × List (List Record × List Record))
  | t, [] => Except.ok (t, [])
  | t, f :: fs =>
    match pass1Run O K cutoff limit t f with
    | Except.error e => Except.error e
    | Except.ok (t1, ds, os) =>
      match pass1AllFiles O K cutoff limit t1 fs with
      | Except.error e => Except.error e
      | Except.ok (t2, rest) => Except.ok (t2, (ds, os) :: rest)

/-- Pass 2 over every file's deferred store in order, appending each
file's pass-2 output after its pass-1 output (the script opens the trim
file in append mode for pass 2). -/
def pass2AllFiles (O : TableOps τ) (K cutoff limit : Nat)
    (variable_coverage : Bool) :
    τ → List (List Record × List Record) →
    Except TableErr (τ × List (List Record))
  | t, [] => Except.ok (t, [])
  | t, (ds, os) :: rest =>
    match pass2Run O K cutoff limit variable_coverage t ds with
    | Except.error e => Except.error e
    | Except.ok (t1, out2) =>
      match pass2AllFiles O K cutoff limit variable_coverage t1 rest with
      | Except.error e => Except.error e
      | Except.ok (t2, outs) => Except.ok (t2, (os ++ out2) :: outs)

/-- Both passes over every input file: all pass-1 loops, then all
pass-2 loops, returning the final table and each file's complete
`.abundtrim` contents. -/
def runPasses (O : TableOps τ) (K cutoff limit : Nat)
    (variable_coverage : Bool) (t : τ) (files : List (List Item)) :
    Except TableErr (τ × List (List Record)) :=
  match pass1AllFiles O K cutoff limit t files with
  | Except.error e => Except.error e
  | Except.ok (t1, mid) =>
    pass2AllFiles O K cutoff limit variable_coverage t1 mid

/-- The whole run as the script's `main` performs it: reject duplicate
input filenames, construct the counting table (validating the k-mer
size), run both passes over every file, and only then evaluate the
estimated false-positive rate of the final table, exiting with status 1
when it exceeds `MAX_FALSE_POSITIVE_RATE` and 0 otherwise.  The outer
`Except` is the pre-processing configuration failure; the exit status
accompanies the already-produced outputs. -/
def runMain (O : TableOps τ) (ksize : Int) (cutoff limit : Nat)
    (variable_coverage : Bool) (filenames : List String)
    (files : List (List Item)) (t0 : τ) (fpRateOf : τ → Rat) :
    Except ConfigErr (Except TableErr (List (List Record) × Nat)) :=
  if hasDuplicateInputs filenames then Except.error ConfigErr.duplicateInputs
  else
    match new_counting_hash ksize with
    | Except.error e => Except.error e
    | Except.ok K =>
      Except.ok
        (match runPasses O K cutoff limit variable_coverage t0 files with
         | Except.error e => Except.error e
         | Except.ok (tf, outs) =>
           Except.ok (outs,
             if MAX_FALSE_POSITIVE_RATE < fpRateOf tf then 1 else 0))

/-
Pass 2 with explicit file-system effects, for the deferred-store
cleanup question: each final-output write may raise an IOError, the
loop propagates it (the script has no try/finally), and
`os.unlink(pass2filename)` runs only after the loop completes.
-/

/-- Errors that can abort the pass-2 loop of one file: a counting-table
exception or an IOError on an output write. -/
inductive RunErr where
  | table (e : TableErr)
  | io
deriving DecidableEq, Repr

/-- Attempt a list of output writes, numbering them from `w`; the write
numbered `i` raises an IOError exactly when `failOn i` is true, and the
records written before the failure are lost to the caller (the
exception propagates). -/
def attemptWrites (failOn : Nat → Bool) :
    Nat → List Record → Except RunErr (Nat × List Record)
  | w, [] => Except.ok (w, [])
  | w, r :: rs =>
    if failOn w then Except.error RunErr.io
    else
      match attemptWrites failOn (w + 1) rs with
      | Except.error e => Except.error e
      | Except.ok (w1, done) => Except.ok (w1, r :: done)

/-- The pass-2 loop of one file with fallible output writes: each
record is examined and its writes attempted in order; any exception
propagates immediately. -/
def pass2LoopFallible (O : TableOps τ) (K cutoff limit : Nat)
    (variable_coverage : Bool) (failOn : Nat → Bool) :
    τ → Nat → List Record → Except RunErr (τ × Nat × List Record)
  | t, w, [] => Except.ok (t, w, [])
  | t, w, r :: rs =>
    match pass2Record O K cutoff limit variable_coverage t r with
    | Except.error e => Except.error (RunErr.table e)
    | Except.ok (t1, ws) =>
      match attemptWrites failOn w ws with
      | Except.error e => Except.error e
      | Except.ok (w1, done) =>
        match pass2LoopFallible O K cutoff limit variable_coverage failOn t1 w1 rs with
        | Except.error e => Except.error e
        | Except.ok (t2, w2, rest) => Except.ok (t2, w2, done ++ rest)

/-- The pass-2 stage of one file including the deferred-store removal:
`os.unlink(pass2filename)` stands directly after the loop, with no
try/finally, so the store is deleted exactly when the loop returns
without raising.  The boolean records whether the deferred store was
deleted. -/
def pass2FileStage (O : TableOps τ) (K cutoff limit : Nat)
    (variable_coverage : Bool) (failOn : Nat → Bool) (t : τ)
    (store : List Record) : Except RunErr (τ × Nat × List Record) × Bool :=
  match pass2LoopFallible O K cutoff limit variable_coverage failOn t 0 store with
  | Except.error e => (Except.error e, false)
  | Except.ok res => (Except.ok res, true)

/-- Decidable equality of `Except` results, so that concrete runs of
the pipeline can be checked by `decide`. -/
instance instDecEqExcept {ε α : Type} [DecidableEq ε] [DecidableEq α] :
    DecidableEq (Except ε α) := fun x y =>
  match x, y with
  | Except.error a, Except.error b =>
    if h : a = b then isTrue (by rw [h])
    else isFalse (fun hc => h (Except.error.inj hc))
  | Except.error _, Except.ok _ => isFalse (fun hc => nomatch hc)
  | Except.ok _, Except.error _ => isFalse (fun hc => nomatch hc)
  | Except.ok a, Except.ok b =>
    if h : a = b then isTrue (by rw [h])
    else isFalse (fun hc => h (Except.ok.inj hc))

/-
Concrete material for witnesses and counterexamples.
-/

/-- A record whose sequence is eight `A` bases. -/
def recA : Record := ⟨"readA", "AAAAAAAA".toList, none⟩

/-- A record whose sequence starts with a `T` followed by seven `A`
bases, so that only its first k-mer is rare after training. -/
def recT : Record := ⟨"readT", "TAAAAAAA".toList, none⟩

/-- A record shorter than the k-mer size 4. -/
def recShort : Record := ⟨"readS", "ACG".toList, none⟩

/-- A table (for K = 4) trained by consuming a run of seven `A` bases
twenty times, making the k-mer `AAAA` abundant (count 80). -/
def tableTrained : List (List Char) :=
  (List.range 20).foldl (fun t _ => spec_consume 4 t "AAAAAAA".toList) []

/-
Claim C2 — paired records are an atomic unit in pass 1.
-/

/-- C2: in pass 1, a pair is handled atomically: if at least one mate's
median abundance is below `normalize_limit`, both mates are consumed
into the table and both are written to the deferred store, and neither
mate reaches final output; final output receives the pair only when
both mates individually have median `>= normalize_limit`. -/
theorem pass1_pair_atomicity (O : TableOps τ) (K cutoff limit : Nat)
    (t : τ) (r1 r2 : Record) (med1 med2 a1 b1 a2 b2 : Nat)
    (h1 : O.get_median_count t (replaceNA r1.sequence) =
      Except.ok (med1, a1, b1))
    (h2 : O.get_median_count t (replaceNA r2.sequence) =
      Except.ok (med2, a2, b2)) :
    ((med1 < limit ∨ med2 < limit) →
      pass1Item O K cutoff limit t (Item.pair r1 r2) =
        Except.ok ⟨O.consume (O.consume t (replaceNA r1.sequence))
          (replaceNA r2.sequence), [r1, r2], []⟩)
    ∧ (∀ res, pass1Item O K cutoff limit t (Item.pair r1 r2) =
        Except.ok res → res.finalWrites ≠ [] →
        limit ≤ med1 ∧ limit ≤ med2) := by
  constructor
  · intro hlt
    simp [pass1Item, pass1Pair, h1, h2, hlt]
  · intro res hres hne
    by_cases hlt : med1 < limit ∨ med2 < limit
    · simp [pass1Item, pass1Pair, h1, h2, hlt] at hres
      rw [← hres] at hne
      simp at hne
    · push_neg at hlt
      exact ⟨hlt.1, hlt.2⟩

/-- Witness for C2 at a concrete input: on the empty table both mates
of the pair have median 0 < 20, so both are consumed and deferred. -/
theorem pass1_pair_atomicity_witness :
    pass1Item (specOps 4) 4 2 20 [] (Item.pair recA recT) =
      Except.ok ⟨spec_consume 4 (spec_consume 4 [] (replaceNA recA.sequence))
        (replaceNA recT.sequence), [recA, recT], []⟩ :=
  (pass1_pair_atomicity (specOps 4) 4 2 20 [] recA recT 0 0 0 0 0 0
    (by decide) (by decide)).1 (by decide)

/-
Claim C3 — pass 2 over the deferred store.
-/

/-- C3: in pass 2, a deferred record whose recomputed median is still
below `normalize_limit` is, when variable coverage is enabled, written
byte-identical to its input (the very record, no truncation of sequence,
name or quality); in every other case `trim_on_abundance` is applied and
the trimmed record is written exactly when `trim_at >= K`, else nothing
is written. -/
theorem pass2_variable_coverage_policy (O : TableOps τ)
    (K cutoff limit : Nat) (vc : Bool) (t : τ) (r : Record)
    (med a b : Nat)
    (hm : O.get_median_count t (replaceNA r.sequence) =
      Except.ok (med, a, b)) :
    (med < limit → vc = true →
      pass2Record O K cutoff limit vc t r = Except.ok (t, [r]))
    ∧ ((limit ≤ med ∨ vc = false) →
      pass2Record O K cutoff limit vc t r =
        Except.ok (t,
          if K ≤ (O.trim_on_abundance t (replaceNA r.sequence) cutoff).2
          then [trim_record r
            (O.trim_on_abundance t (replaceNA r.sequence) cutoff).2]
          else [])) := by
  constructor
  · intro hmed hvc
    simp [pass2Record, hm, hmed, hvc]
  · intro hcase
    have hnc : ¬(med < limit ∧ vc = true) := by
      rcases hcase with h | h
      · exact fun hc => absurd hc.1 (not_lt.mpr h)
      · exact fun hc => by rw [h] at hc; exact Bool.false_ne_true hc.2
    simp only [pass2Record, hm]
    rw [if_neg hnc]
    split <;> rfl

/-- Witness for C3 at a concrete input: on the empty table the deferred
record has median 0 < 20, and with variable coverage enabled it is
emitted byte-identical. -/
theorem pass2_variable_coverage_policy_witness :
    pass2Record (specOps 4) 4 2 20 true [] recT = Except.ok ([], [recT]) :=
  (pass2_variable_coverage_policy (specOps 4) 4 2 20 true [] recT 0 0 0
    (by decide)).1 (by decide) rfl

/-
Claim C9 — N-to-A substitution happens before every counting-table
operation.
-/

/-- The substituted sequence never contains the ambiguous base `N`. -/
theorem replaceNA_no_N (s : List Char) : 'N' ∉ replaceNA s := by
  intro hmem
  rcases List.mem_map.mp hmem with ⟨c, _, hc⟩
  by_cases h : c = 'N' <;> simp [h] at hc

/-- C9: in either pass, the pipeline consults the counting table only
at the N-substituted sequence of each record: two operation bundles
that agree wherever the argument is the `N`-to-`A` substitution of some
string produce identical pass-1 and pass-2 behaviour on every item and
record, whatever they do on other (N-containing) sequences. -/
theorem counting_on_substituted_sequences (O O2 : TableOps τ)
    (K cutoff limit : Nat) (vc : Bool) (t : τ) (it : Item) (r : Record)
    (hmed : ∀ u s, O.get_median_count u (replaceNA s) =
      O2.get_median_count u (replaceNA s))
    (hcon : ∀ u s, O.consume u (replaceNA s) = O2.consume u (replaceNA s))
    (htrim : ∀ u s, O.trim_on_abundance u (replaceNA s) cutoff =
      O2.trim_on_abundance u (replaceNA s) cutoff) :
    pass1Item O K cutoff limit t it = pass1Item O2 K cutoff limit t it
    ∧ pass2Record O K cutoff limit vc t r =
      pass2Record O2 K cutoff limit vc t r := by
  constructor
  · cases it with
    | single r1 =>
      simp only [pass1Item, pass1Single, hmed, hcon, htrim]
    | pair r1 r2 =>
      simp only [pass1Item, pass1Pair, hmed, hcon, htrim]
  · simp only [pass2Record, hmed, htrim]

/-- An operation bundle that refuses (with `InvalidBase`) every
sequence still containing an `N`, and otherwise behaves like the
spec-modelled table. -/
def strictOps (K : Nat) : TableOps (List (List Char)) :=
  { get_median_count := fun t s =>
      if 'N' ∈ s then Except.error TableErr.InvalidBase
      else spec_get_median_count K t s,
    consume := fun t s => spec_consume K t s,
    trim_on_abundance := fun t s cutoff => spec_trim_on_abundance K t s cutoff }

/-- Witness for C9 at a concrete input: the strict bundle and the
spec-modelled bundle differ on raw N-containing sequences, yet the
pipeline cannot tell them apart, because it substitutes before every
table operation. -/
theorem counting_on_substituted_sequences_witness :
    pass1Item (strictOps 4) 4 2 20 [] (Item.single recT) =
      pass1Item (specOps 4) 4 2 20 [] (Item.single recT)
    ∧ pass2Record (strictOps 4) 4 2 20 true [] recA =
      pass2Record (specOps 4) 4 2 20 true [] recA :=
  counting_on_substituted_sequences (strictOps 4) (specOps 4) 4 2 20 true []
    (Item.single recT) recA
    (fun u s => by
      simp [strictOps, specOps, if_neg (replaceNA_no_N s)])
    (fun u s => rfl)
    (fun u s => rfl)

/-
Claim C10 — final output preserves the original input bases.
-/

/-- A record is well formed when its quality string, if present, has
exactly the length of its sequence. -/
def WellFormed (r : Record) : Prop :=
  ∀ acc, r.accuracy = some acc → acc.length = r.sequence.length

/-- An output record is a truncation of an input record when it keeps
the name, its sequence is `sequence[:k]` of the original (original
bases, no N-substitution), its quality is `accuracy[:k]` of the
original, and the truncated quality has exactly the length of the
truncated sequence. -/
def TruncationOf (out rin : Record) : Prop :=
  ∃ k, out.name = rin.name ∧ out.sequence = rin.sequence.take k ∧
    out.accuracy = rin.accuracy.map (fun a => a.take k) ∧
    ∀ acc, out.accuracy = some acc → acc.length = out.sequence.length

/-- A trimmed well-formed record is a truncation of the original. -/
theorem trim_record_truncation (r : Record) (k : Nat)
    (hwf : WellFormed r) : TruncationOf (trim_record r k) r := by
  refine ⟨k, rfl, rfl, rfl, ?_⟩
  intro acc hacc
  simp only [trim_record] at hacc ⊢
  rcases hr : r.accuracy with _ | a
  · rw [hr] at hacc; simp at hacc
  · rw [hr] at hacc
    simp only [Option.map_some'] at hacc
    cases hacc
    simp [List.length_take, hwf a hr]

/-- A well-formed record is a truncation of itself (take the whole
length). -/
theorem self_truncation (r : Record) (hwf : WellFormed r) :
    TruncationOf r r := by
  refine ⟨r.sequence.length, rfl, (List.take_length _).symm, ?_, hwf⟩
  rcases hr : r.accuracy with _ | a
  · rfl
  · simp only [Option.map_some']
    rw [← hwf a hr, List.take_length]

/-- C10: every record written to final output, in either pass, is a
truncation of one of the input records of the processed item: the
output sequence is a prefix of the original input sequence (so the
N-to-A substitution used for counting is never reflected in the
output), and a quality string, when present, is truncated to exactly
the length of the truncated sequence. -/
theorem final_output_preserves_input (O : TableOps τ)
    (K cutoff limit : Nat) (vc : Bool) (t u : τ) (it : Item) (r : Record)
    (res : StepResult τ) (t2 : τ) (ws : List Record)
    (hwfI : ∀ ri ∈ itemRecords it, WellFormed ri)
    (hwfR : WellFormed r)
    (h1 : pass1Item O K cutoff limit t it = Except.ok res)
    (h2 : pass2Record O K cutoff limit vc u r = Except.ok (t2, ws)) :
    (∀ out ∈ res.finalWrites, ∃ rin ∈ itemRecords it, TruncationOf out rin)
    ∧ (∀ out ∈ ws, TruncationOf out r) := by
  constructor
  · cases it with
    | single r1 =>
      have hwf1 : WellFormed r1 := hwfI r1 (by simp [itemRecords])
      simp only [pass1Item, pass1Single] at h1
      split at h1
      · cases h1
      · split at h1
        · cases h1
          intro out hout
          simp at hout
        · split at h1
          · cases h1
            intro out hout
            simp at hout
            subst hout
            exact ⟨r1, by simp [itemRecords], trim_record_truncation r1 _ hwf1⟩
          · cases h1
            intro out hout
            simp at hout
    | pair r1 r2 =>
      have hwf1 : WellFormed r1 := hwfI r1 (by simp [itemRecords])
      have hwf2 : WellFormed r2 := hwfI r2 (by simp [itemRecords])
      simp only [pass1Item, pass1Pair] at h1
      split at h1
      · cases h1
      · split at h1
        · cases h1
        · split at h1
          · cases h1
            intro out hout
            simp at hout
          · cases h1
            intro out hout
            simp at hout
            rcases hout with hout | hout
            · subst hout
              refine ⟨r1, by simp [itemRecords], ?_⟩
              split
              · exact trim_record_truncation r1 _ hwf1
              · exact self_truncation r1 hwf1
            · subst hout
              refine ⟨r2, by simp [itemRecords], ?_⟩
              split
              · exact trim_record_truncation r2 _ hwf2
              · exact self_truncation r2 hwf2
  · simp only [pass2Record] at h2
    split at h2
    · cases h2
    · split at h2
      · cases h2
        intro out hout
        simp at hout
        subst hout
        exact self_truncation _ hwfR
      · split at h2
        · cases h2
          intro out hout
          simp at hout
          subst hout
          exact trim_record_truncation r _ hwfR
        · cases h2
          intro out hout
          simp at hout

/-- A record carrying a quality string of the same length as its
sequence, for the C10 witness. -/
def recQ : Record :=
  ⟨"readQ", "TAAAAAAA".toList, some "########".toList⟩

/-- Witness for C10 at a concrete input: a pass-1 item whose record is
emitted trimmed (on the trained table), and a pass-2 record emitted
unmodified (low median on the empty table, variable coverage on);
every final output is a truncation of its input record. -/
theorem final_output_preserves_input_witness :
    (∀ out ∈ (StepResult.mk tableTrained []
        [trim_record recA 8] : StepResult (List (List Char))).finalWrites,
      ∃ rin ∈ itemRecords (Item.single recA), TruncationOf out rin)
    ∧ (∀ out ∈ [recQ], TruncationOf out recQ) :=
  final_output_preserves_input (specOps 4) 4 2 20 true tableTrained []
    (Item.single recA) recQ
    (StepResult.mk tableTrained [] [trim_record recA 8]) [] [recQ]
    (by intro ri hri
        simp [itemRecords] at hri
        subst hri
        intro acc hacc
        exact absurd hacc (by simp [recA]))
    (by intro acc hacc
        have h := Option.some.inj hacc
        subst h
        decide)
    (by decide) (by decide)

/-
Claim C1 — the pass-1 emit condition.  The claim states that every
record whose median reaches the limit is written to final output if and
only if its trim position is at least K.  That is true of the unpaired
branch, but the paired branch writes the pair unconditionally: a mate
with `trim_at < K` is written unmodified rather than dropped.
-/

/-- Counterexample to C1 as stated: on the trained table both mates of
the pair `recT, recA` have median 80 ≥ 20, mate `recT` has trim
position 3 < K = 4, and yet the pair branch writes `recT` (unmodified)
to final output instead of dropping it. -/
theorem pass1_emit_iff_trim_counterexample :
    ((specOps 4).trim_on_abundance tableTrained (replaceNA recT.sequence) 2).2 < 4
    ∧ pass1Item (specOps 4) 4 2 20 tableTrained (Item.pair recT recA) =
        Except.ok ⟨tableTrained, [], [recT, trim_record recA 8]⟩ := by
  constructor
  · decide
  · decide

/-- C1 as amended: in pass 1, a record with median below
`normalize_limit` is consumed and deferred; a single record at the
limit is trimmed and written exactly when `trim_at ≥ K`, else dropped;
in a pair with both mates at the limit, each mate is replaced by its
trimmed version only when its own `trim_at ≥ K`, and the pair is always
written to final output (a mate with `trim_at < K` is written
unmodified, not dropped). -/
theorem pass1_emit_amended (O : TableOps τ) (K cutoff limit : Nat)
    (t : τ) (r r1 r2 : Record) (med med1 med2 a b a1 b1 a2 b2 : Nat)
    (hm : O.get_median_count t (replaceNA r.sequence) =
      Except.ok (med, a, b))
    (hm1 : O.get_median_count t (replaceNA r1.sequence) =
      Except.ok (med1, a1, b1))
    (hm2 : O.get_median_count t (replaceNA r2.sequence) =
      Except.ok (med2, a2, b2)) :
    (med < limit →
      pass1Item O K cutoff limit t (Item.single r) =
        Except.ok ⟨O.consume t (replaceNA r.sequence), [r], []⟩)
    ∧ (limit ≤ med →
      pass1Item O K cutoff limit t (Item.single r) =
        Except.ok ⟨t, [],
          if K ≤ (O.trim_on_abundance t (replaceNA r.sequence) cutoff).2
          then [trim_record r
            (O.trim_on_abundance t (replaceNA r.sequence) cutoff).2]
          else []⟩)
    ∧ (limit ≤ med1 → limit ≤ med2 →
      pass1Item O K cutoff limit t (Item.pair r1 r2) =
        Except.ok ⟨t, [],
          [if K ≤ (O.trim_on_abundance t (replaceNA r1.sequence) cutoff).2
           then trim_record r1
             (O.trim_on_abundance t (replaceNA r1.sequence) cutoff).2
           else r1,
           if K ≤ (O.trim_on_abundance t (replaceNA r2.sequence) cutoff).2
           then trim_record r2
             (O.trim_on_abundance t (replaceNA r2.sequence) cutoff).2
           else r2]⟩) := by
  refine ⟨?_, ?_, ?_⟩
  · intro hlt
    simp [pass1Item, pass1Single, hm, hlt]
  · intro hge
    simp only [pass1Item, pass1Single, hm]
    rw [if_neg (not_lt.mpr hge)]
    split <;> rfl
  · intro hge1 hge2
    have hno : ¬(med1 < limit ∨ med2 < limit) := by
      push_neg
      exact ⟨hge1, hge2⟩
    simp only [pass1Item, pass1Pair, hm1, hm2]
    rw [if_neg hno]

/-- Witness for the amended C1 at a concrete input: on the trained
table the pair `recT, recA` is written with `recT` unmodified (its trim
position 3 is below K = 4) and `recA` trimmed at 8. -/
theorem pass1_emit_amended_witness :
    pass1Item (specOps 4) 4 2 20 tableTrained (Item.pair recT recA) =
      Except.ok ⟨tableTrained, [],
        [if (4 : Nat) ≤ ((specOps 4).trim_on_abundance tableTrained
            (replaceNA recT.sequence) 2).2
         then trim_record recT ((specOps 4).trim_on_abundance tableTrained
            (replaceNA recT.sequence) 2).2
         else recT,
         if (4 : Nat) ≤ ((specOps 4).trim_on_abundance tableTrained
            (replaceNA recA.sequence) 2).2
         then trim_record recA ((specOps 4).trim_on_abundance tableTrained
            (replaceNA recA.sequence) 2).2
         else recA]⟩ :=
  ((pass1_emit_amended (specOps 4) 4 2 20 tableTrained recT recT recA
    80 80 80 0 80 0 80 80 80 (by decide) (by decide) (by decide)).2.2)
    (by decide) (by decide)

/-
Claim C5 — counting-table errors while processing a record.  The script
has no exception handler anywhere in its per-record loops, so an error
raised by `get_median_count` propagates and aborts the run; only
`trim_on_abundance` itself is non-fatal on a too-short sequence (it
returns the whole length), and the loop never reaches it because the
median query comes first.
-/

/-- The substitution does not change the length of a sequence. -/
theorem replaceNA_length (s : List Char) :
    (replaceNA s).length = s.length :=
  List.length_map s _

/-- Counterexample to C5 as stated: a record shorter than K raises
`TooShort` in the median query of pass 1, and the loop — having no
handler — aborts the whole run instead of continuing with the record
treated as untrimmable. -/
theorem table_error_aborts_counterexample :
    pass1Run (specOps 4) 4 2 20 [] [Item.single recShort, Item.single recA] =
      Except.error TableErr.TooShort := by
  decide

/-- C5 as amended: a `TooShort` error from `get_median_count` on a
record shorter than K is fatal — it propagates out of either pass
uncaught (the script has no handler), aborting the run; the library's
`trim_on_abundance` alone is non-fatal on such a sequence (trim
position = whole length), but the loop never reaches it because the
median query comes first. -/
theorem table_error_aborts_amended (K cutoff limit : Nat) (vc : Bool)
    (t : List (List Char)) (r : Record)
    (hshort : r.sequence.length < K) :
    pass1Item (specOps K) K cutoff limit t (Item.single r) =
      Except.error TableErr.TooShort
    ∧ pass2Record (specOps K) K cutoff limit vc t r =
      Except.error TableErr.TooShort
    ∧ (spec_trim_on_abundance K t (replaceNA r.sequence) cutoff).2 =
      (replaceNA r.sequence).length := by
  have hlen : (replaceNA r.sequence).length < K := by
    rw [replaceNA_length]; exact hshort
  refine ⟨?_, ?_, ?_⟩
  · simp [pass1Item, pass1Single, specOps, spec_get_median_count, hlen]
  · simp [pass2Record, specOps, spec_get_median_count, hlen]
  · simp [spec_trim_on_abundance, hlen]

/-- Witness for the amended C5 at a concrete input: the three-base
record aborts both passes with `TooShort` while `trim_on_abundance`
alone would have reported it untrimmable at its full length 3. -/
theorem table_error_aborts_amended_witness :
    pass1Item (specOps 4) 4 2 20 [] (Item.single recShort) =
      Except.error TableErr.TooShort
    ∧ pass2Record (specOps 4) 4 2 20 false [] recShort =
      Except.error TableErr.TooShort
    ∧ (spec_trim_on_abundance 4 [] (replaceNA recShort.sequence) 2).2 =
      (replaceNA recShort.sequence).length :=
  table_error_aborts_amended 4 2 20 false [] recShort (by decide)

/-
Claim C6 — unconditional deletion of the deferred store.  The script
runs `os.unlink(pass2filename)` straight after the pass-2 loop with no
try/finally, so an IOError raised by an output write propagates before
the unlink and the deferred store is left behind.
-/

/-- With no injected write failure, attempting a list of writes
succeeds and writes every record in order. -/
theorem attemptWrites_no_failure (failOn : Nat → Bool)
    (hfail : ∀ i, failOn i = false) :
    ∀ (rs : List Record) (w : Nat),
      attemptWrites failOn w rs = Except.ok (w + rs.length, rs) := by
  intro rs
  induction rs with
  | nil => intro w; rfl
  | cons r rs ih =>
    intro w
    have hlen : w + 1 + rs.length = w + (rs.length + 1) := by omega
    simp only [attemptWrites, hfail w, ih (w + 1), List.length_cons, hlen]
    rfl

/-- When the median query succeeds, examining one pass-2 record cannot
raise and leaves the table unchanged. -/
theorem pass2Record_table_ok (O : TableOps τ) (K cutoff limit : Nat)
    (vc : Bool) (t : τ) (r : Record) (v : Nat × Nat × Nat)
    (hv : O.get_median_count t (replaceNA r.sequence) = Except.ok v) :
    ∃ ws, pass2Record O K cutoff limit vc t r = Except.ok (t, ws) := by
  rcases v with ⟨med, a, b⟩
  simp only [pass2Record, hv]
  split
  · exact ⟨[r], rfl⟩
  · split
    · exact ⟨_, rfl⟩
    · exact ⟨[], rfl⟩

/-- With no injected write failure and no counting-table error, the
pass-2 loop of a file runs to completion. -/
theorem pass2LoopFallible_no_failure (O : TableOps τ) (K cutoff limit : Nat)
    (vc : Bool) (failOn : Nat → Bool) (hfail : ∀ i, failOn i = false)
    (store : List Record)
    (hmed : ∀ u r, r ∈ store →
      ∃ v, O.get_median_count u (replaceNA r.sequence) = Except.ok v) :
    ∀ t w, ∃ out,
      pass2LoopFallible O K cutoff limit vc failOn t w store = Except.ok out := by
  induction store with
  | nil => intro t w; exact ⟨(t, w, []), rfl⟩
  | cons r rs ih =>
    intro t w
    obtain ⟨v, hv⟩ := hmed t r (by simp)
    obtain ⟨ws, hws⟩ := pass2Record_table_ok O K cutoff limit vc t r v hv
    obtain ⟨out, hout⟩ :=
      ih (fun u r2 hr2 => hmed u r2 (by simp [hr2])) t (w + ws.length)
    refine ⟨(out.1, out.2.1, ws ++ out.2.2), ?_⟩
    simp only [pass2LoopFallible, hws, attemptWrites_no_failure failOn hfail ws w,
      hout]

/-- Counterexample to C6 as stated: an IOError on the very first
pass-2 output write of a file propagates before `os.unlink`, so the
deferred store of that file is not deleted on that error path. -/
theorem cleanup_counterexample :
    pass2FileStage (specOps 4) 4 2 20 true (fun _ => true) [] [recA] =
      (Except.error RunErr.io, false) := by
  decide

/-- C6 as amended: the deferred store of a file is deleted exactly when
that file's pass-2 loop completes without raising — in particular it is
always deleted when no output write fails and the table raises no error
— but when an exception (such as an IOError of an output write) aborts
the loop, the unlink is never reached and the store is left behind. -/
theorem cleanup_amended (O : TableOps τ) (K cutoff limit : Nat)
    (vc : Bool) (failOn : Nat → Bool) (t : τ) (store : List Record)
    (hfail : ∀ i, failOn i = false)
    (hmed : ∀ u r, r ∈ store →
      ∃ v, O.get_median_count u (replaceNA r.sequence) = Except.ok v) :
    (pass2FileStage O K cutoff limit vc failOn t store).2 = true
    ∧ ∀ (failOn2 : Nat → Bool) res,
        pass2FileStage O K cutoff limit vc failOn2 t store = (res, false) →
        ∃ e, res = Except.error e := by
  constructor
  · obtain ⟨out, hout⟩ :=
      pass2LoopFallible_no_failure O K cutoff limit vc failOn hfail store hmed t 0
    simp [pass2FileStage, hout]
  · intro failOn2 res h
    unfold pass2FileStage at h
    split at h
    · simp only [Prod.mk.injEq] at h
      exact ⟨_, h.1.symm⟩
    · simp only [Prod.mk.injEq] at h
      exact Bool.noConfusion h.2

/-- Witness for the amended C6 at a concrete input: with no write
failure the store of the one-record file is deleted, and any schedule
that skips the deletion must have aborted the loop with an error. -/
theorem cleanup_amended_witness :
    (pass2FileStage (specOps 4) 4 2 20 true (fun _ => false) [] [recA]).2 = true
    ∧ ∀ (failOn2 : Nat → Bool) res,
        pass2FileStage (specOps 4) 4 2 20 true failOn2 [] [recA] =
          (res, false) →
        ∃ e, res = Except.error e :=
  cleanup_amended (specOps 4) 4 2 20 true (fun _ => false) [] [recA]
    (fun _ => rfl)
    (by
      intro u r hr
      simp only [List.mem_singleton] at hr
      subst hr
      have hlen : ¬((replaceNA recA.sequence).length < 4) := by decide
      exact ⟨_, by
        show spec_get_median_count 4 u (replaceNA recA.sequence) = _
        unfold spec_get_median_count
        rw [if_neg hlen]⟩)

/-
Claims C7 and C8 — the end-of-run false-positive gate and the
pre-processing configuration checks.
-/

/-- C7: when both passes complete, the whole run returns exactly the
outputs the passes produced — the false-positive check is evaluated
only afterwards and cannot change or suppress them — and the exit
status is non-zero precisely when the estimated false-positive rate of
the final table exceeds `MAX_FALSE_POSITIVE_RATE` (0.8). -/
theorem fp_gate_after_all_output (O : TableOps τ) (ksize : Int)
    (cutoff limit : Nat) (vc : Bool) (filenames : List String)
    (files : List (List Item)) (t0 : τ) (fpRateOf : τ → Rat)
    (K : Nat) (tf : τ) (outs : List (List Record))
    (hdup : hasDuplicateInputs filenames = false)
    (hk : new_counting_hash ksize = Except.ok K)
    (hrun : runPasses O K cutoff limit vc t0 files = Except.ok (tf, outs)) :
    runMain O ksize cutoff limit vc filenames files t0 fpRateOf =
      Except.ok (Except.ok (outs,
        if MAX_FALSE_POSITIVE_RATE < fpRateOf tf then 1 else 0))
    ∧ ((if MAX_FALSE_POSITIVE_RATE < fpRateOf tf then (1 : Nat) else 0) ≠ 0
        ↔ MAX_FALSE_POSITIVE_RATE < fpRateOf tf) := by
  constructor
  · simp only [runMain, hdup, hk, hrun]
    rfl
  · split
    · simp only [ne_eq, one_ne_zero, not_false_iff, true_iff]
      assumption
    · simp only [ne_eq, not_true, false_iff]
      assumption

/-- Witness for C7 at a concrete input: one file containing one
abundant single record; with an estimator reporting rate 1 > 0.8 the
run returns its outputs and exit status 1. -/
theorem fp_gate_after_all_output_witness :
    runMain (specOps 4) 4 2 20 false ["data.fa"] [[Item.single recA]]
      tableTrained (fun _ => 1) =
      Except.ok (Except.ok ([[trim_record recA 8]],
        if MAX_FALSE_POSITIVE_RATE < (1 : Rat) then 1 else 0)) :=
  (fp_gate_after_all_output (specOps 4) 4 2 20 false ["data.fa"]
    [[Item.single recA]] tableTrained (fun _ => 1) 4 tableTrained
    [[trim_record recA 8]] (by decide) (by decide) (by decide)).1

/-- C8: a duplicate input filename makes the run fail with
`ConfigErr.duplicateInputs`, and a k-mer size ≤ 0 (with distinct
filenames) makes it fail with `ConfigErr.invalidKsize`; in both cases
the returned value does not depend on the input data, the table or the
operations — no record is read, nothing is consumed, nothing is
written. -/
theorem config_errors_fatal (O : TableOps τ) (ksize : Int)
    (cutoff limit : Nat) (vc : Bool) (filenames : List String)
    (files : List (List Item)) (t0 : τ) (fpRateOf : τ → Rat) :
    (hasDuplicateInputs filenames = true →
      runMain O ksize cutoff limit vc filenames files t0 fpRateOf =
        Except.error ConfigErr.duplicateInputs)
    ∧ (hasDuplicateInputs filenames = false → ksize ≤ 0 →
      runMain O ksize cutoff limit vc filenames files t0 fpRateOf =
        Except.error ConfigErr.invalidKsize) := by
  constructor
  · intro hdup
    simp [runMain, hdup]
  · intro hdup hks
    simp [runMain, hdup, new_counting_hash, hks]

/-- Witness for C8 at concrete inputs: the same filename twice is
rejected as a duplicate, and k-mer size 0 with distinct filenames is
rejected as an invalid size — in both cases before any processing. -/
theorem config_errors_fatal_witness :
    runMain (specOps 4) 5 2 20 false ["data.fa", "data.fa"]
      [[Item.single recA]] [] (fun _ => 0) =
      Except.error ConfigErr.duplicateInputs
    ∧ runMain (specOps 4) 0 2 20 false ["data.fa"] [[Item.single recA]]
      [] (fun _ => 0) = Except.error ConfigErr.invalidKsize :=
  ⟨(config_errors_fatal (specOps 4) 5 2 20 false ["data.fa", "data.fa"]
      [[Item.single recA]] [] (fun _ => 0)).1 (by decide),
   (config_errors_fatal (specOps 4) 0 2 20 false ["data.fa"]
      [[Item.single recA]] [] (fun _ => 0)).2 (by decide) (by decide)⟩

/-
Claim C4 — every record reaches exactly one terminal outcome and final
output never repeats a record.
-/

/-- The names of all records yielded by the reader, in order. -/
def itemsNames : List Item → List String
  | [] => []
  | it :: its => itemNames it ++ itemsNames its

/-- The names a pass-1 iteration writes (to either destination) form a
sub-multiset of the names of the item processed. -/
theorem pass1Item_names_le (O : TableOps τ) (K cutoff limit : Nat)
    (t : τ) (it : Item) (res : StepResult τ)
    (h : pass1Item O K cutoff limit t it = Except.ok res) :
    ((res.deferredWrites.map Record.name ++ res.finalWrites.map Record.name :
      List String) : Multiset String) ≤ (itemNames it : Multiset String) := by
  cases it with
  | single r =>
    simp only [pass1Item, pass1Single] at h
    split at h
    · cases h
    · split at h
      · cases h
        simp [itemNames, itemRecords]
      · split at h
        · cases h
          simp [itemNames, itemRecords, trim_record]
        · cases h
          simp [itemNames, itemRecords]
  | pair r1 r2 =>
    simp only [pass1Item, pass1Pair] at h
    split at h
    · cases h
    · split at h
      · cases h
      · split at h
        · cases h
          simp [itemNames, itemRecords]
        · cases h
          have hn1 : ∀ x, (if K ≤ x then trim_record r1 x else r1).name =
              r1.name := by
            intro x; split <;> rfl
          have hn2 : ∀ x, (if K ≤ x then trim_record r2 x else r2).name =
              r2.name := by
            intro x; split <;> rfl
          simp [itemNames, itemRecords, hn1, hn2]

/-- Over the whole pass-1 loop, the names written to the deferred store
and to final output together form a sub-multiset of the input names. -/
theorem pass1Run_names_le (O : TableOps τ) (K cutoff limit : Nat) :
    ∀ (items : List Item) (t t1 : τ) (DS FS : List Record),
      pass1Run O K cutoff limit t items = Except.ok (t1, DS, FS) →
      ((DS.map Record.name : List String) : Multiset String) +
        ((FS.map Record.name : List String) : Multiset String) ≤
        (itemsNames items : Multiset String) := by
  intro items
  induction items with
  | nil =>
    intro t t1 DS FS h
    simp only [pass1Run] at h
    cases h
    simp
  | cons it its ih =>
    intro t t1 DS FS h
    simp only [pass1Run] at h
    split at h
    · cases h
    · rename_i res heq
      split at h
      · cases h
      · rename_i heq2
        cases h
        have hle1 := pass1Item_names_le O K cutoff limit t it res heq
        have hle2 := ih res.table _ _ _ heq2
        simp only [List.map_append, ← Multiset.coe_add] at hle1 ⊢
        simp only [itemsNames, List.map_append, ← Multiset.coe_add]
        rw [add_add_add_comm]
        exact add_le_add hle1 hle2

/-- The names a pass-2 iteration emits form a sub-multiset of the one
deferred name it examined. -/
theorem pass2Record_names_le (O : TableOps τ) (K cutoff limit : Nat)
    (vc : Bool) (t t2 : τ) (r : Record) (ws : List Record)
    (h : pass2Record O K cutoff limit vc t r = Except.ok (t2, ws)) :
    ((ws.map Record.name : List String) : Multiset String) ≤
      ([r.name] : List String) := by
  simp only [pass2Record] at h
  split at h
  · cases h
  · split at h
    · cases h
      simp
    · split at h
      · cases h
        simp [trim_record]
      · cases h
        simp

/-- Over the whole pass-2 loop, the emitted names form a sub-multiset
of the deferred-store names. -/
theorem pass2Run_names_le (O : TableOps τ) (K cutoff limit : Nat)
    (vc : Bool) :
    ∀ (store : List Record) (t t2 : τ) (out : List Record),
      pass2Run O K cutoff limit vc t store = Except.ok (t2, out) →
      ((out.map Record.name : List String) : Multiset String) ≤
        ((store.map Record.name : List String) : Multiset String) := by
  intro store
  induction store with
  | nil =>
    intro t t2 out h
    simp only [pass2Run] at h
    cases h
    simp
  | cons r rs ih =>
    intro t t2 out h
    simp only [pass2Run] at h
    split at h
    · cases h
    · rename_i t1 ws heq
      split at h
      · cases h
      · rename_i heq2
        cases h
        have h1 := pass2Record_names_le O K cutoff limit vc t t1 r ws heq
        have h2 := ih t1 _ _ heq2
        have hc : (r.name :: rs.map Record.name : List String) =
            [r.name] ++ rs.map Record.name := rfl
        simp only [List.map_append, List.map_cons, hc, ← Multiset.coe_add]
        exact add_le_add h1 h2

/-- C4: when the input names are pairwise distinct, no name appears in
final output (pass-1 and pass-2 parts together) more than once, no name
is both deferred and emitted in pass 1, and each pass-1 iteration
writes to at most one of the two destinations; pass 2 (whose loop only
ever appends to final output) is terminal for every deferred record. -/
theorem record_single_terminal_outcome (O : TableOps τ)
    (K cutoff limit : Nat) (vc : Bool) (t t1 t2 : τ) (items : List Item)
    (DS FS1 FS2 : List Record)
    (hnd : (itemsNames items).Nodup)
    (h1 : pass1Run O K cutoff limit t items = Except.ok (t1, DS, FS1))
    (h2 : pass2Run O K cutoff limit vc t1 DS = Except.ok (t2, FS2)) :
    ((FS1 ++ FS2).map Record.name).Nodup
    ∧ (∀ nm ∈ DS.map Record.name, nm ∉ FS1.map Record.name)
    ∧ (∀ (u : τ) (it : Item) (res : StepResult τ),
        pass1Item O K cutoff limit u it = Except.ok res →
        res.deferredWrites = [] ∨ res.finalWrites = []) := by
  have hle := pass1Run_names_le O K cutoff limit items t t1 DS FS1 h1
  have hle2 := pass2Run_names_le O K cutoff limit vc DS t1 t2 FS2 h2
  have hndM : Multiset.Nodup (itemsNames items : Multiset String) :=
    Multiset.coe_nodup.mpr hnd
  have hnd1 := Multiset.nodup_of_le hle hndM
  refine ⟨?_, ?_, ?_⟩
  · have hge : ((FS1.map Record.name : List String) : Multiset String) +
        ((FS2.map Record.name : List String) : Multiset String) ≤
        (itemsNames items : Multiset String) := by
      calc ((FS1.map Record.name : List String) : Multiset String) +
          ((FS2.map Record.name : List String) : Multiset String) ≤
          ((FS1.map Record.name : List String) : Multiset String) +
          ((DS.map Record.name : List String) : Multiset String) :=
            add_le_add_left hle2 _
        _ = ((DS.map Record.name : List String) : Multiset String) +
          ((FS1.map Record.name : List String) : Multiset String) :=
            add_comm _ _
        _ ≤ (itemsNames items : Multiset String) := hle
    have := Multiset.nodup_of_le hge hndM
    rw [Multiset.coe_add, Multiset.coe_nodup] at this
    rw [List.map_append]
    exact this
  · have hdisj := hnd1
    rw [Multiset.coe_add, Multiset.coe_nodup] at hdisj
    have := (List.nodup_append.mp hdisj).2.2
    intro nm hm1 hm2
    exact this hm1 hm2
  · intro u it res h
    cases it with
    | single r =>
      simp only [pass1Item, pass1Single] at h
      split at h
      · cases h
      · split at h
        · cases h
          exact Or.inr rfl
        · split at h
          · cases h
            exact Or.inl rfl
          · cases h
            exact Or.inl rfl
    | pair r1 r2 =>
      simp only [pass1Item, pass1Pair] at h
      split at h
      · cases h
      · split at h
        · cases h
        · split at h
          · cases h
            exact Or.inr rfl
          · cases h
            exact Or.inl rfl

/-- Witness for C4 at a concrete input: one single record is deferred
in pass 1 and emitted trimmed in pass 2; its name appears exactly once
in final output, and the deferred and pass-1 emitted names are
disjoint. -/
theorem record_single_terminal_outcome_witness :
    ((([] : List Record) ++ [trim_record recA 8]).map Record.name).Nodup
    ∧ (∀ nm ∈ [recA].map Record.name,
        nm ∉ ([] : List Record).map Record.name)
    ∧ (∀ (u : List (List Char)) (it : Item)
        (res : StepResult (List (List Char))),
        pass1Item (specOps 4) 4 2 20 u it = Except.ok res →
        res.deferredWrites = [] ∨ res.finalWrites = []) :=
  record_single_terminal_outcome (specOps 4) 4 2 20 false []
    (spec_consume 4 [] (replaceNA recA.sequence))
    (spec_consume 4 [] (replaceNA recA.sequence))
    [Item.single recA] [recA] [] [trim_record recA 8]
    (by decide) (by decide) (by decide)
